import Mathlib

/-!
Verification development for the `chronograph` tracing library.

The Rust sources are shallowly embedded: machine integers become `Nat` or
`Int` (with explicit `% 2 ^ w` where the code truncates), clock reads become
explicit input parameters, and side effects (processor hooks, the recorder,
the batch collector callback) become event traces produced by pure functions.

Modules covered:
- `src/chronograph/src/schema.rs` (data model; the byte codec itself is the
  external `rkyv` crate, so the codec is modelled from the spec's wire-format
  grammar — see `encodeSpanBatch` / `decodeSpanBatch`);
- `src/chronograph/src/lib.rs` (`SampleRate`, `Span`, `Chronograph`,
  `ChronographBuilder`, `impl Drop for Span`);
- `src/chronograph/src/recorder/batch.rs` (`CollectThread::run`);
- `src/chronograph/src/local.rs` (thread-local span slot).
-/

namespace Chronograph

/-! ## Data model (`schema.rs`) -/

/-- `DatapointId` from `schema.rs`: a 64-bit key. -/
structure DatapointId where
  value : Nat
  deriving DecidableEq, Repr

/-- `RecordValue` from `schema.rs`.  Floats are carried as their raw IEEE bit
patterns (`Nat`), which is what the byte codec moves. -/
inductive RecordValue where
  | Instant (v : Nat)
  | UnixTime (v : Int)
  | Utf8String (bytes : List Nat)
  | I32 (v : Int)
  | I64 (v : Int)
  | I128 (v : Int)
  | U32 (v : Nat)
  | U64 (v : Nat)
  | U128 (v : Nat)
  | F32 (bits : Nat)
  | F64 (bits : Nat)
  deriving DecidableEq, Repr

/-- `RecordData` from `schema.rs`. -/
structure RecordData where
  datapoint_id : DatapointId
  value : RecordValue
  deriving DecidableEq, Repr

/-- `SpanData` from `schema.rs`. -/
structure SpanData where
  span_id : Nat
  start_unix_time : Int
  start_instant : Nat
  end_instant : Nat
  records : List RecordData
  deriving DecidableEq, Repr

/-- `SpanBatch` from `schema.rs`. -/
structure SpanBatch where
  spans : List SpanData
  deriving DecidableEq, Repr

/-! ## Sampling policy (`lib.rs`, `SampleRate`) -/

/-- `u64::is_power_of_two` (Rust std): exactly one bit set. -/
def is_power_of_two (n : Nat) : Bool :=
  n != 0 && (n &&& (n - 1)) == 0

/-- The `SampleRate` enum from `lib.rs`. -/
inductive SampleRate where
  | All
  | Pow2 (n : Nat)
  | Modulo (n : Nat)
  deriving DecidableEq, Repr

/-- `impl From<u64> for SampleRate` from `lib.rs`. -/
def SampleRate.ofU64 (value : Nat) : SampleRate :=
  if value == 0 then .All
  else if is_power_of_two value then .Pow2 value
  else .Modulo value

/-- `SampleRate::sample` from `lib.rs`. -/
def SampleRate.sample : SampleRate → Nat → Bool
  | .All, _ => true
  | .Pow2 x, span_id => (span_id &&& (x - 1)) == 0
  | .Modulo x, span_id => (span_id % x) == 0

/-- A nonzero number whose `n &&& (n-1)` vanishes is a power of two. -/
theorem pow_of_and_pred_eq_zero :
    ∀ n : Nat, n ≠ 0 → n &&& (n - 1) = 0 → ∃ k, n = 2 ^ k := by
  intro n
  induction n using Nat.strong_induction_on with
  | _ n ih =>
    intro h0 h
    rcases Nat.lt_or_ge n 2 with h2 | h2
    · have hn1 : n = 1 := by omega
      exact ⟨0, by omega⟩
    · have hd : (n &&& (n - 1)) / 2 = 0 := by rw [h]
      rw [Nat.and_div_two] at hd
      rcases Nat.eq_zero_or_pos (n % 2) with hm | hm
      · have h1 : (n - 1) / 2 = n / 2 - 1 := by omega
        rw [h1] at hd
        obtain ⟨k, hk⟩ := ih (n / 2) (by omega) (by omega) hd
        refine ⟨k + 1, ?_⟩
        rw [Nat.pow_succ]
        omega
      · have hm1 : n % 2 = 1 := by omega
        have h1 : (n - 1) / 2 = n / 2 := by omega
        rw [h1, Nat.and_self] at hd
        omega

/-- `is_power_of_two` agrees with the mathematical notion. -/
theorem is_power_of_two_iff (n : Nat) :
    is_power_of_two n = true ↔ ∃ k, n = 2 ^ k := by
  constructor
  · intro h
    simp only [is_power_of_two, Bool.and_eq_true, bne_iff_ne, ne_eq, beq_iff_eq] at h
    exact pow_of_and_pred_eq_zero n h.1 h.2
  · rintro ⟨k, rfl⟩
    simp only [is_power_of_two, Bool.and_eq_true, bne_iff_ne, ne_eq, beq_iff_eq]
    have hpos : 0 < 2 ^ k := Nat.pos_pow_of_pos k (by omega)
    refine ⟨by omega, ?_⟩
    rw [Nat.and_pow_two_sub_one_eq_mod]
    exact Nat.mod_self _

/-- C3: for every configured rate `R` and span id, the sampling decision is the
pure function of `(R, id)` given by the spec: rate 0 samples everything; a
power-of-two rate `N = 2^k` samples iff `id mod N = 0`, and the bitmask test
`id &&& (N-1) == 0` used by `SampleRate::sample` equals that modulo test for
every id; any other nonzero rate samples iff `id mod R = 0`.  (Determinism is
the first conjunct: the decision is a function of `(R, id)` alone.) -/
theorem sample_decision_eq_mod (R id : Nat) :
    ((SampleRate.ofU64 R).sample id = (SampleRate.ofU64 R).sample id)
    ∧ (R = 0 → (SampleRate.ofU64 R).sample id = true)
    ∧ (∀ k, R = 2 ^ k →
        (SampleRate.ofU64 R).sample id = decide (id % R = 0)
        ∧ ((id &&& (R - 1)) == 0) = decide (id % R = 0))
    ∧ (R ≠ 0 → (¬ ∃ k, R = 2 ^ k) → (SampleRate.ofU64 R).sample id = decide (id % R = 0)) := by
  refine ⟨rfl, ?_, ?_, ?_⟩
  · rintro rfl
    simp [SampleRate.ofU64, SampleRate.sample]
  · rintro k rfl
    have hpos : 0 < 2 ^ k := Nat.pos_pow_of_pos k (by omega)
    have hpow : is_power_of_two (2 ^ k) = true := (is_power_of_two_iff _).mpr ⟨k, rfl⟩
    have hmask : id &&& (2 ^ k - 1) = id % 2 ^ k := Nat.and_pow_two_sub_one_eq_mod id k
    constructor
    · simp only [SampleRate.ofU64, beq_iff_eq, hpow, if_true]
      have hne : ¬ (2 ^ k = 0) := by omega
      simp only [if_neg hne, SampleRate.sample, hmask]
      by_cases h : id % 2 ^ k = 0 <;> simp [h]
    · rw [hmask]
      by_cases h : id % 2 ^ k = 0 <;> simp [h]
  · intro h0 hnp
    have hpow : is_power_of_two R = false := by
      rcases h : is_power_of_two R with _ | _
      · rfl
      · exact absurd ((is_power_of_two_iff R).mp h) hnp
    simp only [SampleRate.ofU64, beq_iff_eq, if_neg h0, hpow, Bool.false_eq_true, if_false,
      SampleRate.sample]
    by_cases h : id % R = 0 <;> simp [h]

/-- Witness for `sample_decision_eq_mod` at rate 4 (a power of two) and id 6. -/
theorem sample_decision_eq_mod_witness :
    (SampleRate.ofU64 4).sample 6 = decide (6 % 4 = 0)
    ∧ ((6 &&& (4 - 1)) == 0) = decide (6 % 4 = 0) :=
  (sample_decision_eq_mod 4 6).2.2.1 2 (by norm_num)

/-! ## Wire codec

`schema.rs` implements `From<SpanBatch> for Vec<u8>` and
`TryFrom<&[u8]> for SpanBatch` by delegating to the external `rkyv` crate,
whose serializer is not part of this repository's sources.

Modelled from the spec: the wire-format grammar of §6 —
`SpanBatch := u32 span_count, span_count × SpanData`;
`SpanData := u64 span_id, i64 start_unix_time_ns, u64 start_instant_ns,
u64 end_instant_ns, u32 record_count, record_count × RecordData`;
`RecordData := u64 datapoint_id, u8 value_tag, value_payload(tag)` with tags
0 Instant(u64), 1 UnixTime(i64), 2 Utf8String(u32 length + bytes), 3 I32,
4 I64, 5 I128, 6 U32, 7 U64, 8 U128, 9 F32, 10 F64; all fixed-width integers
little-endian.  Bytes are `Nat` values below 256. -/

/-- Encode `n` as `w` bytes, little-endian (least significant byte first). -/
def encLE : Nat → Nat → List Nat
  | 0, _ => []
  | w + 1, n => n % 256 :: encLE w (n / 256)

/-- Typed decode failure, per the spec's error taxonomy. -/
inductive DecodeError where
  | truncated
  | unknownTag (tag : Nat)
  | trailing
  deriving DecidableEq, Repr

/-- Read a `w`-byte little-endian integer from the front of the buffer. -/
def readLE : Nat → List Nat → Except DecodeError (Nat × List Nat)
  | 0, bs => .ok (0, bs)
  | _ + 1, [] => .error .truncated
  | w + 1, b :: rest =>
    match readLE w rest with
    | .ok (n, r) => .ok (b + 256 * n, r)
    | .error e => .error e

/-- Read `k` raw bytes from the front of the buffer. -/
def readBytes : Nat → List Nat → Except DecodeError (List Nat × List Nat)
  | 0, bs => .ok ([], bs)
  | _ + 1, [] => .error .truncated
  | k + 1, b :: rest =>
    match readBytes k rest with
    | .ok (s, r) => .ok (b :: s, r)
    | .error e => .error e

/-- Two's-complement image of a signed value in `w` bits. -/
def toTwos (w : Nat) (v : Int) : Nat :=
  if v < 0 then (v + 2 ^ w).toNat else v.toNat

/-- Signed interpretation of a `w`-bit two's-complement pattern. -/
def fromTwos (w : Nat) (n : Nat) : Int :=
  if n < 2 ^ (w - 1) then (n : Int) else (n : Int) - 2 ^ w

/-- Value tag byte of the wire format (§6 tag table). -/
def RecordValue.tag : RecordValue → Nat
  | .Instant _ => 0
  | .UnixTime _ => 1
  | .Utf8String _ => 2
  | .I32 _ => 3
  | .I64 _ => 4
  | .I128 _ => 5
  | .U32 _ => 6
  | .U64 _ => 7
  | .U128 _ => 8
  | .F32 _ => 9
  | .F64 _ => 10

/-- Payload bytes of a value (everything after the tag byte). -/
def RecordValue.payload : RecordValue → List Nat
  | .Instant v => encLE 8 v
  | .UnixTime v => encLE 8 (toTwos 64 v)
  | .Utf8String s => encLE 4 s.length ++ s
  | .I32 v => encLE 4 (toTwos 32 v)
  | .I64 v => encLE 8 (toTwos 64 v)
  | .I128 v => encLE 16 (toTwos 128 v)
  | .U32 v => encLE 4 v
  | .U64 v => encLE 8 v
  | .U128 v => encLE 16 v
  | .F32 v => encLE 4 v
  | .F64 v => encLE 8 v

/-- Encode one value: tag byte, then payload. -/
def encodeValue (v : RecordValue) : List Nat :=
  v.tag :: v.payload

/-- Encode one record: u64 datapoint id, then the value. -/
def encodeRecord (r : RecordData) : List Nat :=
  encLE 8 r.datapoint_id.value ++ encodeValue r.value

/-- Encode one span: header fields, u32 record count, then the records. -/
def encodeSpanData (s : SpanData) : List Nat :=
  encLE 8 s.span_id ++ encLE 8 (toTwos 64 s.start_unix_time)
    ++ encLE 8 s.start_instant ++ encLE 8 s.end_instant
    ++ encLE 4 s.records.length ++ (s.records.map encodeRecord).flatten

/-- Encode a batch: u32 span count, then the spans. -/
def encodeSpanBatch (b : SpanBatch) : List Nat :=
  encLE 4 b.spans.length ++ (b.spans.map encodeSpanData).flatten

/-- Decode one value (tag byte, then tag-determined payload). -/
def decodeValue (bs : List Nat) : Except DecodeError (RecordValue × List Nat) :=
  match bs with
  | [] => .error .truncated
  | tag :: rest =>
    match tag with
    | 0 =>
      match readLE 8 rest with
      | .ok (v, r) => .ok (.Instant v, r)
      | .error e => .error e
    | 1 =>
      match readLE 8 rest with
      | .ok (v, r) => .ok (.UnixTime (fromTwos 64 v), r)
      | .error e => .error e
    | 2 =>
      match readLE 4 rest with
      | .ok (len, r1) =>
        match readBytes len r1 with
        | .ok (s, r2) => .ok (.Utf8String s, r2)
        | .error e => .error e
      | .error e => .error e
    | 3 =>
      match readLE 4 rest with
      | .ok (v, r) => .ok (.I32 (fromTwos 32 v), r)
      | .error e => .error e
    | 4 =>
      match readLE 8 rest with
      | .ok (v, r) => .ok (.I64 (fromTwos 64 v), r)
      | .error e => .error e
    | 5 =>
      match readLE 16 rest with
      | .ok (v, r) => .ok (.I128 (fromTwos 128 v), r)
      | .error e => .error e
    | 6 =>
      match readLE 4 rest with
      | .ok (v, r) => .ok (.U32 v, r)
      | .error e => .error e
    | 7 =>
      match readLE 8 rest with
      | .ok (v, r) => .ok (.U64 v, r)
      | .error e => .error e
    | 8 =>
      match readLE 16 rest with
      | .ok (v, r) => .ok (.U128 v, r)
      | .error e => .error e
    | 9 =>
      match readLE 4 rest with
      | .ok (v, r) => .ok (.F32 v, r)
      | .error e => .error e
    | 10 =>
      match readLE 8 rest with
      | .ok (v, r) => .ok (.F64 v, r)
      | .error e => .error e
    | t => .error (.unknownTag t)

/-- Decode one record (u64 datapoint id, then the value). -/
def decodeRecord (bs : List Nat) : Except DecodeError (RecordData × List Nat) :=
  match readLE 8 bs with
  | .ok (id, r1) =>
    match decodeValue r1 with
    | .ok (v, r2) => .ok (⟨⟨id⟩, v⟩, r2)
    | .error e => .error e
  | .error e => .error e

/-- Decode `n` consecutive records. -/
def decodeRecords : Nat → List Nat → Except DecodeError (List RecordData × List Nat)
  | 0, bs => .ok ([], bs)
  | n + 1, bs =>
    match decodeRecord bs with
    | .ok (r, r1) =>
      match decodeRecords n r1 with
      | .ok (rs, r2) => .ok (r :: rs, r2)
      | .error e => .error e
    | .error e => .error e

/-- Decode one span. -/
def decodeSpanData (bs : List Nat) : Except DecodeError (SpanData × List Nat) :=
  match readLE 8 bs with
  | .ok (span_id, r1) =>
    match readLE 8 r1 with
    | .ok (sut, r2) =>
      match readLE 8 r2 with
      | .ok (si, r3) =>
        match readLE 8 r3 with
        | .ok (ei, r4) =>
          match readLE 4 r4 with
          | .ok (count, r5) =>
            match decodeRecords count r5 with
            | .ok (records, r6) =>
              .ok (⟨span_id, fromTwos 64 sut, si, ei, records⟩, r6)
            | .error e => .error e
          | .error e => .error e
        | .error e => .error e
      | .error e => .error e
    | .error e => .error e
  | .error e => .error e

/-- Decode `n` consecutive spans. -/
def decodeSpans : Nat → List Nat → Except DecodeError (List SpanData × List Nat)
  | 0, bs => .ok ([], bs)
  | n + 1, bs =>
    match decodeSpanData bs with
    | .ok (s, r1) =>
      match decodeSpans n r1 with
      | .ok (ss, r2) => .ok (s :: ss, r2)
      | .error e => .error e
    | .error e => .error e

/-- Decode a whole buffer into a `SpanBatch`; trailing bytes are an error. -/
def decodeSpanBatch (bs : List Nat) : Except DecodeError SpanBatch :=
  match readLE 4 bs with
  | .ok (count, r1) =>
    match decodeSpans count r1 with
    | .ok (ss, r2) =>
      match r2 with
      | [] => .ok ⟨ss⟩
      | _ => .error .trailing
    | .error e => .error e
  | .error e => .error e

/-- In-range check for a value's numeric fields and string bytes. -/
def RecordValue.valid : RecordValue → Bool
  | .Instant v => decide (v < 2 ^ 64)
  | .UnixTime v => decide (-(2 ^ 63 : Int) ≤ v ∧ v < 2 ^ 63)
  | .Utf8String s => decide (s.length < 2 ^ 32) && s.all (fun b => decide (b < 256))
  | .I32 v => decide (-(2 ^ 31 : Int) ≤ v ∧ v < 2 ^ 31)
  | .I64 v => decide (-(2 ^ 63 : Int) ≤ v ∧ v < 2 ^ 63)
  | .I128 v => decide (-(2 ^ 127 : Int) ≤ v ∧ v < 2 ^ 127)
  | .U32 v => decide (v < 2 ^ 32)
  | .U64 v => decide (v < 2 ^ 64)
  | .U128 v => decide (v < 2 ^ 128)
  | .F32 v => decide (v < 2 ^ 32)
  | .F64 v => decide (v < 2 ^ 64)

/-- In-range check for a record. -/
def RecordData.valid (r : RecordData) : Bool :=
  decide (r.datapoint_id.value < 2 ^ 64) && r.value.valid

/-- In-range check for a span. -/
def SpanData.valid (s : SpanData) : Bool :=
  decide (s.span_id < 2 ^ 64)
    && decide (-(2 ^ 63 : Int) ≤ s.start_unix_time ∧ s.start_unix_time < 2 ^ 63)
    && decide (s.start_instant < 2 ^ 64)
    && decide (s.end_instant < 2 ^ 64)
    && decide (s.records.length < 2 ^ 32)
    && s.records.all RecordData.valid

/-- In-range check for a batch. -/
def SpanBatch.valid (b : SpanBatch) : Bool :=
  decide (b.spans.length < 2 ^ 32) && b.spans.all SpanData.valid

/-! ## Codec round-trip lemmas -/

theorem readLE_encLE (w : Nat) : ∀ (n : Nat) (rest : List Nat), n < 256 ^ w →
    readLE w (encLE w n ++ rest) = .ok (n, rest) := by
  induction w with
  | zero =>
    intro n rest h
    have hn : n = 0 := by simpa using h
    subst hn
    simp [encLE, readLE]
  | succ w ih =>
    intro n rest h
    have hdiv : n / 256 < 256 ^ w := by
      rw [Nat.pow_succ] at h
      exact (Nat.div_lt_iff_lt_mul (by omega)).mpr h
    simp only [encLE, List.cons_append, readLE, List.append_eq]
    rw [ih (n / 256) rest hdiv]
    have hmod : n % 256 + 256 * (n / 256) = n := by omega
    simp [hmod]

theorem readBytes_append : ∀ (s rest : List Nat), readBytes s.length (s ++ rest) = .ok (s, rest) := by
  intro s
  induction s with
  | nil => intro rest; simp [readBytes]
  | cons b t ih =>
    intro rest
    simp only [List.length_cons, List.cons_append, readBytes, List.append_eq]
    rw [ih rest]

theorem fromTwos_toTwos (k : Nat) (v : Int) (h1 : -(2 ^ k : Int) ≤ v) (h2 : v < 2 ^ k) :
    fromTwos (k + 1) (toTwos (k + 1) v) = v := by
  have hA : ((2 : Int)) ^ (k + 1) = 2 * 2 ^ k := by ring
  have hN : ((2 : Nat)) ^ (k + 1) = 2 * 2 ^ k := by ring
  have hcast : (((2 : Nat) ^ k : Nat) : Int) = (2 : Int) ^ k := by push_cast; ring
  have hcast2 : (((2 : Nat) ^ (k + 1) : Nat) : Int) = (2 : Int) ^ (k + 1) := by push_cast; ring
  simp only [toTwos, fromTwos, Nat.add_sub_cancel]
  split
  · split <;> omega
  · split <;> omega

theorem toTwos_lt (k : Nat) (v : Int) (h1 : -(2 ^ k : Int) ≤ v) (h2 : v < 2 ^ k) :
    toTwos (k + 1) v < 2 ^ (k + 1) := by
  have hA : ((2 : Int)) ^ (k + 1) = 2 * 2 ^ k := by ring
  have hN : ((2 : Nat)) ^ (k + 1) = 2 * 2 ^ k := by ring
  have hcast : (((2 : Nat) ^ k : Nat) : Int) = (2 : Int) ^ k := by push_cast; ring
  have hcast2 : (((2 : Nat) ^ (k + 1) : Nat) : Int) = (2 : Int) ^ (k + 1) := by push_cast; ring
  simp only [toTwos]
  split <;> omega

theorem decodeValue_encodeValue (v : RecordValue) (rest : List Nat) (h : v.valid = true) :
    decodeValue (encodeValue v ++ rest) = .ok (v, rest) := by
  have h256_4 : (256 : Nat) ^ 4 = 2 ^ 32 := by norm_num
  have h256_8 : (256 : Nat) ^ 8 = 2 ^ 64 := by norm_num
  have h256_16 : (256 : Nat) ^ 16 = 2 ^ 128 := by norm_num
  cases v with
  | Instant v =>
    simp only [RecordValue.valid, decide_eq_true_eq] at h
    simp only [encodeValue, RecordValue.tag, RecordValue.payload, List.cons_append, decodeValue]
    rw [readLE_encLE 8 v rest (by omega)]
  | UnixTime v =>
    simp only [RecordValue.valid, decide_eq_true_eq] at h
    simp only [encodeValue, RecordValue.tag, RecordValue.payload, List.cons_append, decodeValue]
    rw [readLE_encLE 8 (toTwos 64 v) rest (by
      have := toTwos_lt 63 v (by exact_mod_cast h.1) (by exact_mod_cast h.2)
      norm_num at this ⊢
      exact this)]
    have hrt := fromTwos_toTwos 63 v (by exact_mod_cast h.1) (by exact_mod_cast h.2)
    norm_num at hrt
    simp [hrt]
  | Utf8String s =>
    simp only [RecordValue.valid, Bool.and_eq_true, decide_eq_true_eq, List.all_eq_true] at h
    simp only [encodeValue, RecordValue.tag, RecordValue.payload, List.cons_append,
      List.append_assoc, decodeValue]
    rw [readLE_encLE 4 s.length (s ++ rest) (by omega)]
    dsimp only
    rw [readBytes_append s rest]
  | I32 v =>
    simp only [RecordValue.valid, decide_eq_true_eq] at h
    simp only [encodeValue, RecordValue.tag, RecordValue.payload, List.cons_append, decodeValue]
    rw [readLE_encLE 4 (toTwos 32 v) rest (by
      have := toTwos_lt 31 v (by exact_mod_cast h.1) (by exact_mod_cast h.2)
      norm_num at this ⊢
      exact this)]
    have hrt := fromTwos_toTwos 31 v (by exact_mod_cast h.1) (by exact_mod_cast h.2)
    norm_num at hrt
    simp [hrt]
  | I64 v =>
    simp only [RecordValue.valid, decide_eq_true_eq] at h
    simp only [encodeValue, RecordValue.tag, RecordValue.payload, List.cons_append, decodeValue]
    rw [readLE_encLE 8 (toTwos 64 v) rest (by
      have := toTwos_lt 63 v (by exact_mod_cast h.1) (by exact_mod_cast h.2)
      norm_num at this ⊢
      exact this)]
    have hrt := fromTwos_toTwos 63 v (by exact_mod_cast h.1) (by exact_mod_cast h.2)
    norm_num at hrt
    simp [hrt]
  | I128 v =>
    simp only [RecordValue.valid, decide_eq_true_eq] at h
    simp only [encodeValue, RecordValue.tag, RecordValue.payload, List.cons_append, decodeValue]
    rw [readLE_encLE 16 (toTwos 128 v) rest (by
      have := toTwos_lt 127 v (by exact_mod_cast h.1) (by exact_mod_cast h.2)
      norm_num at this ⊢
      exact this)]
    have hrt := fromTwos_toTwos 127 v (by exact_mod_cast h.1) (by exact_mod_cast h.2)
    norm_num at hrt
    simp [hrt]
  | U32 v =>
    simp only [RecordValue.valid, decide_eq_true_eq] at h
    simp only [encodeValue, RecordValue.tag, RecordValue.payload, List.cons_append, decodeValue]
    rw [readLE_encLE 4 v rest (by omega)]
  | U64 v =>
    simp only [RecordValue.valid, decide_eq_true_eq] at h
    simp only [encodeValue, RecordValue.tag, RecordValue.payload, List.cons_append, decodeValue]
    rw [readLE_encLE 8 v rest (by omega)]
  | U128 v =>
    simp only [RecordValue.valid, decide_eq_true_eq] at h
    simp only [encodeValue, RecordValue.tag, RecordValue.payload, List.cons_append, decodeValue]
    rw [readLE_encLE 16 v rest (by omega)]
  | F32 v =>
    simp only [RecordValue.valid, decide_eq_true_eq] at h
    simp only [encodeValue, RecordValue.tag, RecordValue.payload, List.cons_append, decodeValue]
    rw [readLE_encLE 4 v rest (by omega)]
  | F64 v =>
    simp only [RecordValue.valid, decide_eq_true_eq] at h
    simp only [encodeValue, RecordValue.tag, RecordValue.payload, List.cons_append, decodeValue]
    rw [readLE_encLE 8 v rest (by omega)]

theorem decodeRecord_encodeRecord (r : RecordData) (rest : List Nat) (h : r.valid = true) :
    decodeRecord (encodeRecord r ++ rest) = .ok (r, rest) := by
  simp only [RecordData.valid, Bool.and_eq_true, decide_eq_true_eq] at h
  have h256_8 : (256 : Nat) ^ 8 = 2 ^ 64 := by norm_num
  simp only [encodeRecord, decodeRecord, List.append_assoc]
  rw [readLE_encLE 8 r.datapoint_id.value (encodeValue r.value ++ rest) (by omega)]
  dsimp only
  rw [decodeValue_encodeValue r.value rest h.2]

theorem decodeRecords_encode (l : List RecordData) (rest : List Nat)
    (h : ∀ r ∈ l, r.valid = true) :
    decodeRecords l.length ((l.map encodeRecord).flatten ++ rest) = .ok (l, rest) := by
  induction l with
  | nil => simp [decodeRecords]
  | cons r t ih =>
    simp only [List.length_cons, List.map_cons, List.flatten_cons, List.append_assoc,
      decodeRecords]
    rw [decodeRecord_encodeRecord r _ (h r (by simp))]
    dsimp only
    rw [ih (fun x hx => h x (by simp [hx]))]

theorem decodeSpanData_encode (s : SpanData) (rest : List Nat) (h : s.valid = true) :
    decodeSpanData (encodeSpanData s ++ rest) = .ok (s, rest) := by
  simp only [SpanData.valid, Bool.and_eq_true, decide_eq_true_eq, List.all_eq_true] at h
  obtain ⟨⟨⟨⟨⟨hid, hsut⟩, hsi⟩, hei⟩, hlen⟩, hrec⟩ := h
  have h256_4 : (256 : Nat) ^ 4 = 2 ^ 32 := by norm_num
  have h256_8 : (256 : Nat) ^ 8 = 2 ^ 64 := by norm_num
  simp only [encodeSpanData, decodeSpanData, List.append_assoc]
  rw [readLE_encLE 8 s.span_id _ (by omega)]
  dsimp only
  rw [readLE_encLE 8 (toTwos 64 s.start_unix_time) _ (by
    have := toTwos_lt 63 s.start_unix_time (by exact_mod_cast hsut.1) (by exact_mod_cast hsut.2)
    norm_num at this ⊢
    exact this)]
  dsimp only
  rw [readLE_encLE 8 s.start_instant _ (by omega)]
  dsimp only
  rw [readLE_encLE 8 s.end_instant _ (by omega)]
  dsimp only
  rw [readLE_encLE 4 s.records.length _ (by omega)]
  dsimp only
  rw [decodeRecords_encode s.records rest hrec]
  dsimp only
  have hrt := fromTwos_toTwos 63 s.start_unix_time (by exact_mod_cast hsut.1)
    (by exact_mod_cast hsut.2)
  norm_num at hrt
  simp [hrt]

theorem decodeSpans_encode (l : List SpanData) (rest : List Nat)
    (h : ∀ s ∈ l, s.valid = true) :
    decodeSpans l.length ((l.map encodeSpanData).flatten ++ rest) = .ok (l, rest) := by
  induction l with
  | nil => simp [decodeSpans]
  | cons s t ih =>
    simp only [List.length_cons, List.map_cons, List.flatten_cons, List.append_assoc,
      decodeSpans]
    rw [decodeSpanData_encode s _ (h s (by simp))]
    dsimp only
    rw [ih (fun x hx => h x (by simp [hx]))]

/-- C1: for every valid `SpanBatch` `b`, decoding the bytes produced by
encoding `b` succeeds and yields a batch structurally equal to `b` — same span
count and, spanwise, the same `span_id`, `start_unix_time`, `start_instant`,
`end_instant` and the same records in the same order.  (Codec modelled from
the spec's wire-format grammar; the Rust code delegates to `rkyv`.) -/
theorem decode_encode_roundtrip (b : SpanBatch) (h : b.valid = true) :
    decodeSpanBatch (encodeSpanBatch b) = .ok b := by
  simp only [SpanBatch.valid, Bool.and_eq_true, decide_eq_true_eq, List.all_eq_true] at h
  have h256_4 : (256 : Nat) ^ 4 = 2 ^ 32 := by norm_num
  simp only [encodeSpanBatch, decodeSpanBatch]
  rw [show (encLE 4 b.spans.length ++ (b.spans.map encodeSpanData).flatten)
        = encLE 4 b.spans.length ++ ((b.spans.map encodeSpanData).flatten ++ []) by simp]
  rw [readLE_encLE 4 b.spans.length _ (by omega)]
  dsimp only
  rw [decodeSpans_encode b.spans [] h.2]

/-- Witness for `decode_encode_roundtrip`: a concrete two-span batch covering
every value tag round-trips. -/
theorem decode_encode_roundtrip_witness :
    decodeSpanBatch (encodeSpanBatch ⟨[
      ⟨3, -5, 7, 11, [⟨⟨1⟩, .Instant 9⟩, ⟨⟨2⟩, .UnixTime (-1)⟩,
        ⟨⟨3⟩, .Utf8String [104, 105]⟩, ⟨⟨4⟩, .I32 (-7)⟩, ⟨⟨5⟩, .I64 6⟩]⟩,
      ⟨4, 0, 0, 2, [⟨⟨6⟩, .I128 (-8)⟩, ⟨⟨7⟩, .U32 1⟩, ⟨⟨8⟩, .U64 2⟩,
        ⟨⟨9⟩, .U128 3⟩, ⟨⟨10⟩, .F32 4⟩, ⟨⟨11⟩, .F64 5⟩]⟩]⟩)
    = .ok ⟨[
      ⟨3, -5, 7, 11, [⟨⟨1⟩, .Instant 9⟩, ⟨⟨2⟩, .UnixTime (-1)⟩,
        ⟨⟨3⟩, .Utf8String [104, 105]⟩, ⟨⟨4⟩, .I32 (-7)⟩, ⟨⟨5⟩, .I64 6⟩]⟩,
      ⟨4, 0, 0, 2, [⟨⟨6⟩, .I128 (-8)⟩, ⟨⟨7⟩, .U32 1⟩, ⟨⟨8⟩, .U64 2⟩,
        ⟨⟨9⟩, .U128 3⟩, ⟨⟨10⟩, .F32 4⟩, ⟨⟨11⟩, .F64 5⟩]⟩]⟩ :=
  decode_encode_roundtrip _ (by decide)

theorem encLE_length (w : Nat) : ∀ n : Nat, (encLE w n).length = w := by
  induction w with
  | zero => intro n; rfl
  | succ w ih => intro n; simp [encLE, ih]

theorem readLE_encLE_mod (w : Nat) : ∀ (n : Nat) (rest : List Nat),
    readLE w (encLE w n ++ rest) = .ok (n % 256 ^ w, rest) := by
  induction w with
  | zero => intro n rest; simp [encLE, readLE, Nat.mod_one]
  | succ w ih =>
    intro n rest
    simp only [encLE, List.cons_append, readLE, List.append_eq]
    rw [ih (n / 256) rest]
    have hmod : n % 256 + 256 * (n / 256 % 256 ^ w) = n % 256 ^ (w + 1) := by
      rw [Nat.pow_succ, Nat.mul_comm (256 ^ w) 256, Nat.mod_mul]
    simp [hmod]

/-- C2: the encoding of a `SpanBatch` has exactly the spec's wire layout — a
u32 span count followed by the span encodings; each span is u64 `span_id`,
i64 `start_unix_time`, u64 `start_instant`, u64 `end_instant`, u32 record
count, then the records; each record is a u64 datapoint id, a u8 tag from the
table 0 `Instant` … 10 `F64`, then that tag's payload; every fixed-width
integer occupies exactly its width in bytes and reads back least-significant
byte first (little-endian).  (Codec modelled from the spec's wire grammar;
the Rust code delegates to `rkyv`.) -/
theorem encode_wire_layout :
    (∀ b : SpanBatch, encodeSpanBatch b
        = encLE 4 b.spans.length ++ (b.spans.map encodeSpanData).flatten)
    ∧ (∀ s : SpanData, encodeSpanData s
        = encLE 8 s.span_id ++ encLE 8 (toTwos 64 s.start_unix_time)
          ++ encLE 8 s.start_instant ++ encLE 8 s.end_instant
          ++ encLE 4 s.records.length ++ (s.records.map encodeRecord).flatten)
    ∧ (∀ r : RecordData, encodeRecord r
        = encLE 8 r.datapoint_id.value ++ r.value.tag :: r.value.payload)
    ∧ (∀ n, encodeValue (.Instant n) = 0 :: encLE 8 n)
    ∧ (∀ i, encodeValue (.UnixTime i) = 1 :: encLE 8 (toTwos 64 i))
    ∧ (∀ s, encodeValue (.Utf8String s) = 2 :: (encLE 4 s.length ++ s))
    ∧ (∀ i, encodeValue (.I32 i) = 3 :: encLE 4 (toTwos 32 i))
    ∧ (∀ i, encodeValue (.I64 i) = 4 :: encLE 8 (toTwos 64 i))
    ∧ (∀ i, encodeValue (.I128 i) = 5 :: encLE 16 (toTwos 128 i))
    ∧ (∀ n, encodeValue (.U32 n) = 6 :: encLE 4 n)
    ∧ (∀ n, encodeValue (.U64 n) = 7 :: encLE 8 n)
    ∧ (∀ n, encodeValue (.U128 n) = 8 :: encLE 16 n)
    ∧ (∀ n, encodeValue (.F32 n) = 9 :: encLE 4 n)
    ∧ (∀ n, encodeValue (.F64 n) = 10 :: encLE 8 n)
    ∧ (∀ w n, (encLE w n).length = w)
    ∧ (∀ w n rest, readLE w (encLE w n ++ rest) = .ok (n % 256 ^ w, rest)) :=
  ⟨fun _ => rfl, fun _ => rfl, fun _ => rfl, fun _ => rfl, fun _ => rfl, fun _ => rfl,
    fun _ => rfl, fun _ => rfl, fun _ => rfl, fun _ => rfl, fun _ => rfl, fun _ => rfl,
    fun _ => rfl, fun _ => rfl, encLE_length, readLE_encLE_mod⟩

/-! ## Encode/decode error behavior (`schema.rs`) -/

/-- `impl From<SpanBatch> for Vec<u8>` from `schema.rs`, as a function of the
serializer's outcome: `rkyv::to_bytes(&value).unwrap_or_default().into_vec()`
returns the serialized bytes on success and degrades to the empty vector on a
serialization failure, never propagating the error. -/
def spanBatchIntoVec {ε : Type} (toBytesResult : Except ε (List Nat)) : List Nat :=
  match toBytesResult with
  | .ok v => v
  | .error _ => []

/-- C8: decoding is a total function into a typed `Except` result — every
buffer yields either `ok` or a typed error, never a crash; the empty buffer
decodes to a clean typed error; an unknown value tag is a typed format error;
and encoding never propagates a serialization failure, degrading to the empty
byte vector instead.  (Decoder modelled from the spec's wire grammar; the
`unwrap_or_default` degradation is the code of `schema.rs` itself.) -/
theorem codec_error_handling :
    (∀ (ε : Type) (e : ε), spanBatchIntoVec (Except.error e) = [])
    ∧ (∀ (ε : Type) (v : List Nat), spanBatchIntoVec (Except.ok v : Except ε (List Nat)) = v)
    ∧ (∀ bs : List Nat,
        (∃ b, decodeSpanBatch bs = .ok b) ∨ (∃ er, decodeSpanBatch bs = .error er))
    ∧ decodeSpanBatch [] = .error .truncated
    ∧ decodeSpanBatch (encLE 4 1 ++ encLE 8 0 ++ encLE 8 0 ++ encLE 8 0 ++ encLE 8 0
        ++ encLE 4 1 ++ encLE 8 0 ++ [99]) = .error (.unknownTag 99) := by
  refine ⟨fun _ _ => rfl, fun _ _ => rfl, fun bs => ?_, by rfl, by rfl⟩
  cases h : decodeSpanBatch bs with
  | ok b => exact Or.inl ⟨b, rfl⟩
  | error er => exact Or.inr ⟨er, rfl⟩

/-! ## Span lifecycle (`lib.rs`)

Clock reads are explicit inputs: `Instant::elapsed().as_nanos() as u64`
readings become `Nat` parameters and `SystemTime` values become `Int`
nanosecond offsets from the Unix epoch (negative = before the epoch).
Processor identities are an abstract type `α`; the Arc'd
`ChronographContext` travels inside each span as its processor list and is
immutable, as in the source.  Side effects of finalization (processor hooks,
the recorder call) are reified as a `FinalizeEvent` trace. -/

/-- `SystemTime::duration_since(UNIX_EPOCH).unwrap_or_default().as_nanos() as i64`
applied to a `SystemTime` carried as `Int` nanoseconds from the epoch:
pre-epoch times default to 0, and the u128 nanosecond count is cast to i64
(wrapping two's complement). -/
def sysToI64 (t : Int) : Int :=
  if t < 0 then 0 else fromTwos 64 (t.toNat % 2 ^ 64)

/-- The `Span` struct from `lib.rs` (minus the `Instant` handle, whose reads
are passed in explicitly). -/
structure Span (α : Type) where
  sampled : Bool
  context_processors : List α
  span_id : Nat
  start_unix_time : Int
  start_instant : Nat
  records : List RecordData

/-- `Span::record_value_no_sampling` from `lib.rs`: push one record. -/
def Span.record_value_no_sampling (s : Span α) (datapoint_id : DatapointId)
    (value : RecordValue) : Span α :=
  { s with records := s.records ++ [⟨datapoint_id, value⟩] }

/-- `Span::record_value` from `lib.rs`. -/
def Span.record_value (s : Span α) (datapoint_id : DatapointId)
    (value : RecordValue) : Span α :=
  if s.sampled then s.record_value_no_sampling datapoint_id value else s

/-- `Span::record_instant` from `lib.rs`; `now` is the
`global_start_instant.elapsed().as_nanos() as u64` reading at call time. -/
def Span.record_instant (s : Span α) (datapoint_id : DatapointId) (now : Nat) : Span α :=
  if s.sampled then s.record_value datapoint_id (.Instant now) else s

/-- `Span::record_unix_time` from `lib.rs`: appends the span's *start* wall
clock; note that no clock is read. -/
def Span.record_unix_time (s : Span α) (datapoint_id : DatapointId) : Span α :=
  if s.sampled then
    s.record_value_no_sampling datapoint_id (.UnixTime (sysToI64 s.start_unix_time))
  else s

/-- One observable side effect of span finalization. -/
inductive FinalizeEvent (α : Type) where
  | processed (p : α) (data : SpanData)
  | recorded (data : SpanData)

/-- The `for post_processor in self.context.processors.iter()` loop in
`impl Drop for Span`. -/
def runProcessors : List α → SpanData → List (FinalizeEvent α)
  | [], _ => []
  | p :: rest, sd => .processed p sd :: runProcessors rest sd

/-- The `span_data` local constructed in `impl Drop for Span`: the span's id,
converted start wall clock, start instant, the fresh end-instant reading, and
the accumulated records (`take(&mut self.records)`). -/
def Span.finalData (s : Span α) (endNow : Nat) : SpanData :=
  { span_id := s.span_id
    start_unix_time := sysToI64 s.start_unix_time
    start_instant := s.start_instant
    end_instant := endNow
    records := s.records }

/-- `impl Drop for Span` from `lib.rs`; `endNow` is the
`global_start_instant.elapsed().as_nanos() as u64` reading taken during drop.
Returns the trace of side effects. -/
def Span.dropSpan (s : Span α) (endNow : Nat) : List (FinalizeEvent α) :=
  if !s.sampled then []
  else
    let span_data : SpanData := s.finalData endNow
    runProcessors s.context_processors span_data ++ [.recorded span_data]

/-- `#[derive(Clone)]` on `Span`: a field-for-field copy (the records vector
is cloned, so the copy is independent). -/
def Span.clone (s : Span α) : Span α :=
  { sampled := s.sampled
    context_processors := s.context_processors
    span_id := s.span_id
    start_unix_time := s.start_unix_time
    start_instant := s.start_instant
    records := s.records }

/-- `ChronographContext` from `lib.rs` (the recorder variant does not affect
any claim proved here; the recorder call is the `recorded` trace event). -/
structure ChronographContext (α : Type) where
  processors : List α
  sample_rate : SampleRate

/-- `ChronographBuilder` from `lib.rs`. -/
structure ChronographBuilder (α : Type) where
  context : ChronographContext α

/-- `Chronograph::builder()` from `lib.rs`. -/
def ChronographState.builder : ChronographBuilder α :=
  { context := { processors := [], sample_rate := .All } }

/-- `ChronographBuilder::with_processor` from `lib.rs`: append-only. -/
def ChronographBuilder.with_processor (b : ChronographBuilder α) (post_processor : α) :
    ChronographBuilder α :=
  { b with context := { b.context with processors := b.context.processors ++ [post_processor] } }

/-- `ChronographBuilder::with_sample_rate` from `lib.rs`. -/
def ChronographBuilder.with_sample_rate (b : ChronographBuilder α) (sample_rate : Nat) :
    ChronographBuilder α :=
  { b with context := { b.context with sample_rate := SampleRate.ofU64 sample_rate } }

/-- The `Chronograph` struct from `lib.rs`: shared context plus the atomic
span-id counter. -/
structure ChronographState (α : Type) where
  context : ChronographContext α
  next_id : Nat

/-- `ChronographBuilder::build` from `lib.rs`. -/
def ChronographBuilder.build (b : ChronographBuilder α) : ChronographState α :=
  { context := b.context, next_id := 0 }

/-- `Chronograph::start_span` from `lib.rs`; `startUnix` and `startInstant`
are the two clock readings taken at creation. -/
def ChronographState.start_span (c : ChronographState α) (startUnix : Int)
    (startInstant : Nat) : Span α × ChronographState α :=
  ({ sampled := c.context.sample_rate.sample c.next_id
     context_processors := c.context.processors
     span_id := c.next_id
     start_unix_time := startUnix
     start_instant := startInstant
     records := [] },
   { c with next_id := c.next_id + 1 })

/-- A record-call made on a span during its life, with its clock input. -/
inductive RecordOp where
  | instant (datapoint_id : DatapointId) (now : Nat)
  | unixTime (datapoint_id : DatapointId)
  | value (datapoint_id : DatapointId) (v : RecordValue)

/-- Apply one record call. -/
def Span.applyOp (s : Span α) : RecordOp → Span α
  | .instant id now => s.record_instant id now
  | .unixTime id => s.record_unix_time id
  | .value id v => s.record_value id v

/-- Apply a sequence of record calls in order. -/
def Span.applyOps (s : Span α) (ops : List RecordOp) : Span α :=
  ops.foldl Span.applyOp s

theorem applyOp_preserves (s : Span α) (op : RecordOp) :
    (s.applyOp op).sampled = s.sampled
    ∧ (s.applyOp op).start_unix_time = s.start_unix_time
    ∧ (s.applyOp op).span_id = s.span_id
    ∧ (s.applyOp op).start_instant = s.start_instant
    ∧ (s.applyOp op).context_processors = s.context_processors := by
  cases op <;> by_cases h : s.sampled <;>
    simp [Span.applyOp, Span.record_instant, Span.record_unix_time, Span.record_value,
      Span.record_value_no_sampling, h]

theorem applyOps_preserves (ops : List RecordOp) : ∀ s : Span α,
    (s.applyOps ops).sampled = s.sampled
    ∧ (s.applyOps ops).start_unix_time = s.start_unix_time
    ∧ (s.applyOps ops).span_id = s.span_id
    ∧ (s.applyOps ops).start_instant = s.start_instant
    ∧ (s.applyOps ops).context_processors = s.context_processors := by
  induction ops with
  | nil => intro s; exact ⟨rfl, rfl, rfl, rfl, rfl⟩
  | cons op rest ih =>
    intro s
    have h1 := applyOp_preserves s op
    have h2 := ih (s.applyOp op)
    simp only [Span.applyOps, List.foldl_cons] at h2 ⊢
    exact ⟨h2.1.trans h1.1, h2.2.1.trans h1.2.1, h2.2.2.1.trans h1.2.2.1,
      h2.2.2.2.1.trans h1.2.2.2.1, h2.2.2.2.2.trans h1.2.2.2.2⟩

theorem applyOp_unsampled (s : Span α) (op : RecordOp) (h : s.sampled = false) :
    s.applyOp op = s := by
  cases op <;>
    simp [Span.applyOp, Span.record_instant, Span.record_unix_time, Span.record_value, h]

theorem applyOps_unsampled (ops : List RecordOp) : ∀ s : Span α, s.sampled = false →
    s.applyOps ops = s := by
  induction ops with
  | nil => intro s _; rfl
  | cons op rest ih =>
    intro s h
    simp only [Span.applyOps, List.foldl_cons]
    rw [applyOp_unsampled s op h]
    exact ih s h

theorem runProcessors_eq_map (ps : List α) (sd : SpanData) :
    runProcessors ps sd = ps.map fun p => FinalizeEvent.processed p sd := by
  induction ps with
  | nil => rfl
  | cons p rest ih => simp [runProcessors, ih]

/-- C4: a span whose sampling decision is false accumulates no records no
matter how many `record_instant` / `record_unix_time` / `record_value` calls
are made, and its finalization builds no `SpanData`, invokes no processor and
invokes no recorder (the drop trace is empty). -/
theorem unsampled_span_no_effects {α : Type} (c : ChronographState α) (startUnix : Int)
    (startInstant : Nat) (ops : List RecordOp) (endNow : Nat)
    (h : c.context.sample_rate.sample c.next_id = false) :
    (((c.start_span startUnix startInstant).1.applyOps ops).records = [])
    ∧ ((c.start_span startUnix startInstant).1.applyOps ops).dropSpan endNow = [] := by
  have hs : (c.start_span startUnix startInstant).1.sampled = false := h
  rw [applyOps_unsampled ops _ hs]
  refine ⟨rfl, ?_⟩
  simp [Span.dropSpan, hs]

/-- Concrete fixture: a chronograph at rate 2 whose next span id is 1. -/
def rateTwoChrono : ChronographState Nat :=
  { context := { processors := [], sample_rate := SampleRate.ofU64 2 }, next_id := 1 }

/-- Concrete fixture: three record calls of the three kinds. -/
def threeRecordOps : List RecordOp :=
  [.instant ⟨1⟩ 5, .unixTime ⟨2⟩, .value ⟨3⟩ (.U32 4)]

/-- Witness for `unsampled_span_no_effects`: rate 2 does not sample id 1. -/
theorem unsampled_span_no_effects_witness :
    (((rateTwoChrono.start_span 0 0).1.applyOps threeRecordOps).records = [])
    ∧ ((rateTwoChrono.start_span 0 0).1.applyOps threeRecordOps).dropSpan 9 = [] :=
  unsampled_span_no_effects rateTwoChrono 0 0 threeRecordOps 9 (by decide)

/-- C5: finalizing a sampled span constructs exactly one `SpanData` carrying
the span's id, converted start wall clock, start instant, the freshly read
end instant and the accumulated records in order; the drop trace invokes every
registered processor on that `SpanData` in registration order and only then,
as the single final event, hands the `SpanData` to the recorder.  The second
conjunct shows the builder keeps processors in registration order. -/
theorem sampled_drop_trace {α : Type} (s : Span α) (endNow : Nat) (h : s.sampled = true) :
    (s.dropSpan endNow
        = (s.context_processors.map fun p => FinalizeEvent.processed p (s.finalData endNow))
          ++ [FinalizeEvent.recorded (s.finalData endNow)])
    ∧ (s.finalData endNow
        = { span_id := s.span_id
            start_unix_time := sysToI64 s.start_unix_time
            start_instant := s.start_instant
            end_instant := endNow
            records := s.records })
    ∧ (∀ ps : List α,
        ((ps.foldl ChronographBuilder.with_processor
            (ChronographState.builder : ChronographBuilder α)).build).context.processors = ps) := by
  refine ⟨?_, rfl, ?_⟩
  · simp [Span.dropSpan, h, runProcessors_eq_map]
  · intro ps
    have key : ∀ (l : List α) (b : ChronographBuilder α),
        (l.foldl ChronographBuilder.with_processor b).context.processors
          = b.context.processors ++ l := by
      intro l
      induction l with
      | nil => intro b; simp
      | cons p rest ih =>
        intro b
        simp [List.foldl_cons, ih, ChronographBuilder.with_processor]
    simp [ChronographBuilder.build, key, ChronographState.builder]

/-- Concrete fixture: a sampled span with two registered processors. -/
def twoProcSpan : Span Nat :=
  { sampled := true, context_processors := [7, 8], span_id := 3, start_unix_time := 5,
    start_instant := 2, records := [⟨⟨1⟩, .U32 4⟩] }

/-- Witness for `sampled_drop_trace` on a two-processor sampled span. -/
theorem sampled_drop_trace_witness :
    twoProcSpan.dropSpan 9
      = ([7, 8].map fun p => FinalizeEvent.processed p (twoProcSpan.finalData 9))
        ++ [FinalizeEvent.recorded (twoProcSpan.finalData 9)] :=
  (sampled_drop_trace twoProcSpan 9 rfl).1

/-- C6: on a sampled span, `record_unix_time` appends a `UnixTime` record
whose value is the span's own start wall-clock time (as converted by the
code), and it does so no matter when in the span's life it is called: a later
call, after any sequence of other record calls, appends the very same value. -/
theorem record_unix_time_uses_start {α : Type} (s : Span α) (id1 : DatapointId)
    (h : s.sampled = true) :
    ((s.record_unix_time id1).records
        = s.records ++ [⟨id1, .UnixTime (sysToI64 s.start_unix_time)⟩])
    ∧ (∀ (ops : List RecordOp) (id2 : DatapointId),
        (((s.record_unix_time id1).applyOps ops).record_unix_time id2).records
          = ((s.record_unix_time id1).applyOps ops).records
            ++ [⟨id2, .UnixTime (sysToI64 s.start_unix_time)⟩]) := by
  constructor
  · simp [Span.record_unix_time, h, Span.record_value_no_sampling]
  · intro ops id2
    have h1 := applyOp_preserves s (.unixTime id1)
    have h2 := applyOps_preserves ops (s.record_unix_time id1)
    have hsam : ((s.record_unix_time id1).applyOps ops).sampled = true := by
      rw [h2.1]; exact h1.1.trans h
    have hsut : ((s.record_unix_time id1).applyOps ops).start_unix_time
        = s.start_unix_time := by
      rw [h2.2.1]; exact h1.2.1
    generalize hg : (s.record_unix_time id1).applyOps ops = t at hsam hsut ⊢
    simp [Span.record_unix_time, hsam, hsut, Span.record_value_no_sampling]

/-- Concrete fixture: a sampled span started at wall clock 42. -/
def startedAt42 : Span Nat :=
  { sampled := true, context_processors := [], span_id := 0, start_unix_time := 42,
    start_instant := 0, records := [] }

/-- Witness for `record_unix_time_uses_start`: two calls separated by another
record both append the start time. -/
theorem record_unix_time_uses_start_witness :
    (((startedAt42.record_unix_time ⟨1⟩).applyOps [.instant ⟨2⟩ 77]).record_unix_time ⟨3⟩).records
      = ((startedAt42.record_unix_time ⟨1⟩).applyOps [.instant ⟨2⟩ 77]).records
        ++ [⟨⟨3⟩, .UnixTime (sysToI64 42)⟩] :=
  (record_unix_time_uses_start startedAt42 ⟨1⟩ rfl).2 [.instant ⟨2⟩ 77] ⟨3⟩

/-- The recorder deliveries contained in a finalization trace. -/
def recordedData : FinalizeEvent α → Option SpanData
  | .recorded d => some d
  | .processed _ _ => none

theorem recordedData_runProcessors (ps : List α) (sd : SpanData) :
    (runProcessors ps sd).filterMap recordedData = [] := by
  induction ps with
  | nil => rfl
  | cons p rest ih => simp [runProcessors, recordedData, ih]

/-- C10: `Span` derives `Clone`; the clone is a field-for-field copy (same
id, sampling decision, timestamps and records), and each of the two values
runs the full finalization when dropped, so one started span id can produce
two `SpanData` deliveries to the recorder — finalization is once per `Span`
value, not once per allocated id. -/
theorem span_clone_double_delivery {α : Type} (s : Span α) (e1 e2 : Nat)
    (h : s.sampled = true) :
    (Span.clone s = s)
    ∧ ((s.dropSpan e1).filterMap recordedData
        ++ ((Span.clone s).dropSpan e2).filterMap recordedData
          = [s.finalData e1, s.finalData e2])
    ∧ (s.finalData e1).span_id = s.span_id ∧ (s.finalData e2).span_id = s.span_id := by
  refine ⟨rfl, ?_, rfl, rfl⟩
  have hc : Span.clone s = s := rfl
  rw [hc]
  simp [Span.dropSpan, h, recordedData_runProcessors, recordedData]

/-- Concrete fixture: a sampled span with one processor. -/
def oneProcSpan : Span Nat :=
  { sampled := true, context_processors := [5], span_id := 3, start_unix_time := 10,
    start_instant := 1, records := [] }

/-- Witness for `span_clone_double_delivery`: a concrete sampled span and its
clone deliver two `SpanData` values with the same span id. -/
theorem span_clone_double_delivery_witness :
    (oneProcSpan.dropSpan 6).filterMap recordedData
      ++ ((Span.clone oneProcSpan).dropSpan 8).filterMap recordedData
      = [oneProcSpan.finalData 6, oneProcSpan.finalData 8] :=
  (span_clone_double_delivery oneProcSpan 6 8 rfl).2.1

/-! ## Batching collector thread (`recorder/batch.rs`, `CollectThread::run`)

The loop is embedded as a function over a finite list of iteration inputs.
Each iteration supplies the `recv_timeout` outcome, the `SystemTime::now()`
reading (`Int` nanoseconds), and the items producers pushed onto the shared
queue during the wait.  Queue items are an abstract type `α`; batch-callback
invocations are collected as a list of drained batches. -/

/-- `ThreadAction` from `recorder/batch.rs`, extended with the `Err(_)`
timeout outcome of `recv_timeout`. -/
inductive RecvOutcome where
  | wake
  | shutdown
  | timedOut
  deriving DecidableEq, Repr

/-- One iteration's inputs: the `recv_timeout` outcome, the wall-clock
reading, and the items pushed by producers since the previous iteration. -/
structure IterInput (α : Type) where
  outcome : RecvOutcome
  now : Int
  arrivals : List α

/-- The collector thread's mutable state: the shared queue's contents and the
next scheduled collection deadline, plus the two immutable thresholds. -/
structure CollectThread (α : Type) where
  batch_size_threshold : Nat
  batch_time_threshold : Int
  next_collect_time : Int
  queue : List α

/-- `CollectThread::run` from `recorder/batch.rs`, one iteration at a time.
`Ok(Shutdown)` returns at once — before the threshold check and before any
drain — leaving the queue contents in place and the remaining inputs
unconsumed.  `Ok(Wake)` and `Err(timeout)` fall through to the threshold
check; when it passes, the whole queue is drained, a non-empty batch is
handed to the collector callback, and the deadline is reset. -/
def runCollector : CollectThread α → List (IterInput α) → CollectThread α × List (List α)
  | t, [] => (t, [])
  | t, inp :: rest =>
    let t0 : CollectThread α := { t with queue := t.queue ++ inp.arrivals }
    match inp.outcome with
    | .shutdown => (t0, [])
    | _ =>
      if t0.queue.length ≥ t0.batch_size_threshold ∨ inp.now ≥ t0.next_collect_time then
        let drained := t0.queue
        let emitted := if drained.isEmpty then [] else [drained]
        let t1 : CollectThread α :=
          { t0 with queue := [], next_collect_time := inp.now + t0.batch_time_threshold }
        let next := runCollector t1 rest
        (next.1, emitted ++ next.2)
      else
        runCollector t0 rest

theorem runCollector_shutdown (t : CollectThread α) (inp : IterInput α)
    (rest : List (IterInput α)) (h : inp.outcome = .shutdown) :
    runCollector t (inp :: rest) = ({ t with queue := t.queue ++ inp.arrivals }, []) := by
  simp [runCollector, h]

theorem runCollector_append (pre : List (IterInput α)) :
    ∀ (t : CollectThread α) (post : List (IterInput α)),
      (∀ i ∈ pre, i.outcome ≠ .shutdown) →
      runCollector t (pre ++ post)
        = ((runCollector (runCollector t pre).1 post).1,
           (runCollector t pre).2 ++ (runCollector (runCollector t pre).1 post).2) := by
  induction pre with
  | nil => intro t post _; simp [runCollector]
  | cons inp rest ih =>
    intro t post h
    have hni : inp.outcome ≠ .shutdown := h inp (by simp)
    have hrest : ∀ i ∈ rest, i.outcome ≠ .shutdown := fun i hi => h i (by simp [hi])
    cases ho : inp.outcome with
    | shutdown => exact absurd ho hni
    | wake =>
      simp only [List.cons_append, runCollector, ho, List.append_eq]
      split
      · rw [ih _ post hrest]
        simp
      · rw [ih _ post hrest]
    | timedOut =>
      simp only [List.cons_append, runCollector, ho, List.append_eq]
      split
      · rw [ih _ post hrest]
        simp
      · rw [ih _ post hrest]

/-- C7: receiving the shutdown signal terminates the collector loop
immediately: whatever shutdown-free prefix ran before, the iteration that
receives shutdown performs no drain and no callback (the emitted batch list is
exactly the prefix's), every later iteration input is ignored, and the items
still sitting in the queue — including any pushed after the last drain — stay
there, lost rather than flushed. -/
theorem collector_shutdown_terminal (t : CollectThread α) (pre : List (IterInput α))
    (sd : IterInput α) (post : List (IterInput α))
    (hpre : ∀ i ∈ pre, i.outcome ≠ .shutdown) (hsd : sd.outcome = .shutdown) :
    runCollector t (pre ++ sd :: post)
      = ({ (runCollector t pre).1 with
            queue := (runCollector t pre).1.queue ++ sd.arrivals },
         (runCollector t pre).2) := by
  rw [runCollector_append pre t (sd :: post) hpre]
  rw [runCollector_shutdown (runCollector t pre).1 sd post hsd]
  simp

/-- Witness for `collector_shutdown_terminal`: a wake iteration drains two
items, then shutdown arrives with item 3 still queued; item 3 is lost and the
callback never sees it. -/
theorem collector_shutdown_terminal_witness :
    runCollector
        ({ batch_size_threshold := 2, batch_time_threshold := 10, next_collect_time := 100,
           queue := [] } : CollectThread Nat)
        ([⟨.wake, 0, [1, 2]⟩] ++ ⟨.shutdown, 5, [3]⟩ :: [⟨.wake, 6, [4]⟩])
      = ({ batch_size_threshold := 2, batch_time_threshold := 10, next_collect_time := 10,
           queue := [3] }, [[1, 2]]) := by
  rw [collector_shutdown_terminal _ [⟨.wake, 0, [1, 2]⟩] ⟨.shutdown, 5, [3]⟩ [⟨.wake, 6, [4]⟩]
    (by intro i hi; simp at hi; subst hi; decide) rfl]
  rfl

/-! ## Thread-local span slot (`local.rs`)

The per-thread `RefCell<Option<Span>>` slot is modelled as an `Option Nat`
holding the identity of the current span.  Each operation returns the new
slot, the list of spans finalized by the operation (in order: a replaced span
is dropped by the assignment *before* the new span occupies the slot), and
the span returned to the caller (for `take`).  Span identities supplied to
`start`/`get` stand for fresh spans from the global chronograph; Rust's
ownership discipline — a `Span` value can only be `set` if the caller owns it
— is captured by the `validOps` side condition. -/

/-- One call into `local.rs`.  `start id`/`get id` carry the identity of the
fresh span the global chronograph would create; `set id` installs a span the
caller owns. -/
inductive LocalOp where
  | start (id : Nat)
  | set (id : Nat)
  | get (id : Nat)
  | take
  | endSpan
  deriving DecidableEq, Repr

/-- The five functions of `local.rs` acting on the slot.  Result:
(new slot, spans finalized by the call, span returned to the caller).
`set`/`start` overwrite the slot, dropping (finalizing) the previous span
first; `get` fills an empty slot; `take` removes without finalizing;
`endSpan` (`end_threadlocal_span`) removes and finalizes. -/
def localStep (slot : Option Nat) : LocalOp → Option Nat × List Nat × Option Nat
  | .start id => (some id, slot.toList, none)
  | .set id => (some id, slot.toList, none)
  | .get id =>
    match slot with
    | none => (some id, [], none)
    | some x => (some x, [], none)
  | .take => (none, [], slot)
  | .endSpan => (none, slot.toList, none)

/-- Run a call sequence; returns the final slot and the concatenated
finalization trace. -/
def runLocal (slot : Option Nat) : List LocalOp → Option Nat × List Nat
  | [] => (slot, [])
  | op :: rest =>
    let st := localStep slot op
    let next := runLocal st.1 rest
    (next.1, st.2.1 ++ next.2)

/-- Ownership discipline of the host language: `start`/`get` ids are fresh,
and `set` only installs a span the caller owns — one previously taken (and
not yet re-installed) or a fresh one.  `owned` lists spans held by the
caller after `take`; `used` lists every span identity seen so far. -/
def validOps : Option Nat → List Nat → List Nat → List LocalOp → Bool
  | _, owned, used, .start id :: rest =>
    decide (id ∉ used) && validOps (some id) owned (id :: used) rest
  | _, owned, used, .set id :: rest =>
    (decide (id ∈ owned) || decide (id ∉ used))
      && validOps (some id) (owned.erase id) (id :: used) rest
  | slot, owned, used, .get id :: rest =>
    match slot with
    | none => decide (id ∉ used) && validOps (some id) owned (id :: used) rest
    | some x => validOps (some x) owned used rest
  | slot, owned, used, .take :: rest =>
    match slot with
    | none => validOps none owned used rest
    | some x => validOps none (x :: owned) used rest
  | _, owned, used, .endSpan :: rest => validOps none owned used rest
  | _, _, _, [] => true

/-- Invariant tying the slot, the caller-owned spans, the seen ids and the
finalization trace together: nothing is finalized twice, and the slot and
owned spans are still unfinalized. -/
def LocalInv (slot : Option Nat) (owned used trace : List Nat) : Prop :=
  trace.Nodup ∧ owned.Nodup
    ∧ (∀ x, slot = some x → x ∉ trace ∧ x ∉ owned ∧ x ∈ used)
    ∧ (∀ x ∈ owned, x ∉ trace ∧ x ∈ used)
    ∧ (∀ x ∈ trace, x ∈ used)

theorem nodup_append_optSlot (trace : List Nat) (slot : Option Nat) (hTr : trace.Nodup)
    (h : ∀ x, slot = some x → x ∉ trace) : (trace ++ slot.toList).Nodup := by
  cases slot with
  | none => simpa using hTr
  | some old =>
    rw [List.nodup_append]
    refine ⟨hTr, by simp, ?_⟩
    intro x hx hmem
    simp only [Option.toList_some, List.mem_singleton] at hmem
    subst hmem
    exact h x rfl hx

theorem mem_append_optSlot (x : Nat) (trace : List Nat) (slot : Option Nat) :
    x ∈ trace ++ slot.toList ↔ x ∈ trace ∨ slot = some x := by
  cases slot <;> simp [eq_comm]

theorem runLocal_trace_nodup :
    ∀ (ops : List LocalOp) (slot : Option Nat) (owned used trace : List Nat),
      validOps slot owned used ops = true →
      LocalInv slot owned used trace →
      (trace ++ (runLocal slot ops).2).Nodup := by
  intro ops
  induction ops with
  | nil =>
    intro slot owned used trace _ hInv
    simpa [runLocal] using hInv.1
  | cons op rest ih =>
    intro slot owned used trace hv hInv
    obtain ⟨hTr, hOw, hSlot, hOwMem, hTrUsed⟩ := hInv
    have hTr' : (trace ++ slot.toList).Nodup :=
      nodup_append_optSlot trace slot hTr (fun x hx => (hSlot x hx).1)
    have hTrUsed' : ∀ x ∈ trace ++ slot.toList, x ∈ used := by
      intro x hx
      rcases (mem_append_optSlot x trace slot).mp hx with h | h
      · exact hTrUsed x h
      · exact (hSlot x h).2.2
    cases op with
    | start id =>
      simp only [validOps, Bool.and_eq_true, decide_eq_true_eq] at hv
      obtain ⟨hfresh, hv2⟩ := hv
      simp only [runLocal, localStep]
      rw [← List.append_assoc]
      refine ih (some id) owned (id :: used) (trace ++ slot.toList) hv2
        ⟨hTr', hOw, ?_, ?_, ?_⟩
      · intro x hx
        cases hx
        refine ⟨?_, ?_, by simp⟩
        · intro hmem
          exact hfresh (hTrUsed' id hmem)
        · intro hmem
          exact hfresh (hOwMem id hmem).2
      · intro x hx
        refine ⟨?_, by simp [(hOwMem x hx).2]⟩
        intro hmem
        rcases (mem_append_optSlot x trace slot).mp hmem with h | h
        · exact (hOwMem x hx).1 h
        · exact ((hSlot x h).2.1) hx
      · intro x hx
        simp [hTrUsed' x hx]
    | set id =>
      simp only [validOps, Bool.and_eq_true, Bool.or_eq_true, decide_eq_true_eq] at hv
      obtain ⟨havail, hv2⟩ := hv
      simp only [runLocal, localStep]
      rw [← List.append_assoc]
      refine ih (some id) (owned.erase id) (id :: used) (trace ++ slot.toList) hv2
        ⟨hTr', hOw.erase id, ?_, ?_, ?_⟩
      · intro x hx
        cases hx
        refine ⟨?_, hOw.not_mem_erase, by simp⟩
        intro hmem
        rcases (mem_append_optSlot id trace slot).mp hmem with h | h
        · rcases havail with h2 | h2
          · exact (hOwMem id h2).1 h
          · exact h2 (hTrUsed id h)
        · rcases havail with h2 | h2
          · exact (hSlot id h).2.1 h2
          · exact h2 (hSlot id h).2.2
      · intro x hx
        have hxo : x ∈ owned := ((hOw.mem_erase_iff).mp hx).2
        refine ⟨?_, by simp [(hOwMem x hxo).2]⟩
        intro hmem
        rcases (mem_append_optSlot x trace slot).mp hmem with h | h
        · exact (hOwMem x hxo).1 h
        · exact (hSlot x h).2.1 hxo
      · intro x hx
        simp [hTrUsed' x hx]
    | get id =>
      cases hslot : slot with
      | none =>
        rw [hslot] at hv
        simp only [validOps, Bool.and_eq_true, decide_eq_true_eq] at hv
        obtain ⟨hfresh, hv2⟩ := hv
        simp only [runLocal, localStep]
        rw [List.nil_append]
        refine ih (some id) owned (id :: used) trace hv2 ⟨hTr, hOw, ?_, ?_, ?_⟩
        · intro x hx
          cases hx
          exact ⟨fun hm => hfresh (hTrUsed id hm), fun hm => hfresh (hOwMem id hm).2, by simp⟩
        · intro x hx
          exact ⟨(hOwMem x hx).1, by simp [(hOwMem x hx).2]⟩
        · intro x hx
          simp [hTrUsed x hx]
      | some cur =>
        rw [hslot] at hv
        simp only [validOps] at hv
        simp only [runLocal, localStep]
        rw [List.nil_append]
        refine ih (some cur) owned used trace hv ⟨hTr, hOw, ?_, hOwMem, hTrUsed⟩
        intro x hx
        cases hx
        exact hSlot cur hslot
    | take =>
      cases hslot : slot with
      | none =>
        rw [hslot] at hv
        simp only [validOps] at hv
        simp only [runLocal, localStep]
        rw [List.nil_append]
        exact ih none owned used trace hv ⟨hTr, hOw, by simp, hOwMem, hTrUsed⟩
      | some cur =>
        rw [hslot] at hv
        simp only [validOps] at hv
        simp only [runLocal, localStep]
        rw [List.nil_append]
        refine ih none (cur :: owned) used trace hv ⟨hTr, ?_, by simp, ?_, hTrUsed⟩
        · exact List.nodup_cons.mpr ⟨(hSlot cur hslot).2.1, hOw⟩
        · intro x hx
          rcases List.mem_cons.mp hx with h | h
          · subst h
            exact ⟨(hSlot x hslot).1, (hSlot x hslot).2.2⟩
          · exact hOwMem x h
    | endSpan =>
      simp only [validOps] at hv
      simp only [runLocal, localStep]
      rw [← List.append_assoc]
      exact ih none owned used (trace ++ slot.toList) hv
        ⟨hTr', hOw, by simp, fun x hx => ⟨fun hm => by
          rcases (mem_append_optSlot x trace slot).mp hm with h | h
          · exact (hOwMem x hx).1 h
          · exact (hSlot x h).2.1 hx, (hOwMem x hx).2⟩, hTrUsed'⟩

/-- C9: `set` (and `start`) on an occupied slot finalizes exactly the
replaced span, emitting its finalization before the new span occupies the
slot; `take` removes and returns the current span with no finalization; and
over any ownership-respecting sequence of `start`/`get`/`set`/`take`/`end`
calls, no span identity is ever finalized more than once (the finalization
trace has no duplicates). -/
theorem threadlocal_finalize_once (ops : List LocalOp)
    (h : validOps none [] [] ops = true) :
    (∀ old new, localStep (some old) (.set new) = (some new, [old], none))
    ∧ (∀ old new, localStep (some old) (.start new) = (some new, [old], none))
    ∧ (∀ slot, localStep slot .take = (none, [], slot))
    ∧ (runLocal none ops).2.Nodup := by
  refine ⟨fun _ _ => rfl, fun _ _ => rfl, fun slot => rfl, ?_⟩
  have := runLocal_trace_nodup ops none [] [] [] h
    ⟨List.nodup_nil, List.nodup_nil, by simp, by simp, by simp⟩
  simpa using this

/-- Concrete fixture: a call sequence exercising replacement, take and
re-install. -/
def localOpsFixture : List LocalOp :=
  [.start 1, .set 2, .take, .set 2, .get 9, .endSpan, .start 3]

/-- Witness for `threadlocal_finalize_once` on `localOpsFixture`: spans 1 and
2 are each finalized exactly once. -/
theorem threadlocal_finalize_once_witness :
    (runLocal none localOpsFixture).2.Nodup :=
  (threadlocal_finalize_once localOpsFixture (by decide)).2.2.2

end Chronograph
